import Mathlib

/-!
Verification of the RioluEngine ownership layer (`EngineUtilities::TSharedPointer`,
`TWeakPointer`, `TUniquePtr`, `TStaticPtr`) and the ECS component lookup built on it
(`Entity::getComponent`, `Actor`), against a shallow embedding of the C++ sources.

Pointers are modelled as `Option Nat` (object / count-cell identifiers, `none` is
`nullptr`).  Reference-count cells hold `Int` values, matching the `int` used by the
source.  Deallocations (`delete`) are logged so that "freed exactly once" properties
can be stated; `delete nullptr` is a no-op and is not logged.
-/

/-- Field model of `EngineUtilities::TSharedPointer<T>` (part_004): a raw target
pointer `ptr` and a raw pointer `refCount` to the shared `int` count cell. -/
structure TSharedPointer where
  ptr : Option Nat
  refCount : Option Nat
deriving DecidableEq, Repr

/-- The default-constructed handle: `ptr(nullptr), refCount(nullptr)` (line 48). -/
def emptySP : TSharedPointer := ⟨none, none⟩

/-- Source `isNull` (line 189): `return ptr == nullptr;`. -/
def TSharedPointer.isNull (h : TSharedPointer) : Bool := h.ptr = none

/-!
One-ownership-group trace machine for the invariant claims.  The group under study
is created by `TSharedPointer(T* rawPtr) : ptr(rawPtr), refCount(new int(1))`
(line 55) with a non-null target; the machine then applies any finite sequence of
copy/move construction, copy/move assignment, `reset()`, `swap` and destruction to
the handles of that group.  The heap is specialised to the group's single count
cell and single target object; `objFrees`/`cellFrees` count the `delete` calls on
them.
-/

/-- Heap-and-handles state for one ownership group. -/
structure GState where
  handles : List TSharedPointer
  cellVal : Int
  objFrees : Nat
  cellFrees : Nat
deriving DecidableEq, Repr

/-- The handle owning the group: target object `0`, count cell `0`. -/
def fullSP : TSharedPointer := ⟨some 0, some 0⟩

/-- Source private `release()` (lines 246-255):
`if (refCount && --(*refCount) == 0) { delete ptr; delete refCount; }
 ptr = nullptr; refCount = nullptr;`.
Returns the handle's new (always nulled) fields together with the updated heap;
`delete` of a null `ptr` frees nothing. -/
def release (sp : TSharedPointer) (g : GState) : TSharedPointer × GState :=
  match sp.refCount with
  | none => (emptySP, g)
  | some _ =>
    let v := g.cellVal - 1
    if v = 0 then
      (emptySP, { g with cellVal := v,
                         objFrees := g.objFrees + (if sp.ptr.isSome then 1 else 0),
                         cellFrees := g.cellFrees + 1 })
    else
      (emptySP, { g with cellVal := v })

/-- The public operations of `TSharedPointer` applied to handles of the group,
identified by their index in `GState.handles`. -/
inductive GOp where
  | copyCons (src : Nat)
  | moveCons (src : Nat)
  | copyAssign (dst src : Nat)
  | moveAssign (dst src : Nat)
  | reset (i : Nat)
  | swapH (i j : Nat)
  | destroy (i : Nat)
deriving DecidableEq, Repr

/-- Read the fields of handle `i` (valid indices only are ever used by `gstep`). -/
def getH (l : List TSharedPointer) (i : Nat) : TSharedPointer := l.getD i emptySP

/-- One step of the machine; each arm is the corresponding member of part_004.
Operations on indices outside the handle list are no-ops (C++ requires the
operands to be live objects).  `dst ≠ src` mirrors the `this != &other`
self-assignment guards (lines 105, 126); a destroyed handle leaves an inert
empty slot behind. -/
def gstep (g : GState) : GOp → GState
  | .copyCons src =>
    -- lines 76-80: copy fields, `if (refCount) ++(*refCount);`
    if src < g.handles.length then
      let s := getH g.handles src
      { g with handles := g.handles ++ [s],
               cellVal := if s.refCount.isSome then g.cellVal + 1 else g.cellVal }
    else g
  | .moveCons src =>
    -- lines 89-93: take fields, null the source, no count change
    if src < g.handles.length then
      let s := getH g.handles src
      { g with handles := g.handles.set src emptySP ++ [s] }
    else g
  | .copyAssign dst src =>
    -- lines 103-114: release(); copy fields; `if (refCount) ++(*refCount);`
    if dst < g.handles.length ∧ src < g.handles.length ∧ dst ≠ src then
      let s := getH g.handles src
      let g1 := (release (getH g.handles dst) g).2
      { g1 with handles := g1.handles.set dst s,
                cellVal := if s.refCount.isSome then g1.cellVal + 1 else g1.cellVal }
    else g
  | .moveAssign dst src =>
    -- lines 124-135: release(); take fields; null the source
    if dst < g.handles.length ∧ src < g.handles.length ∧ dst ≠ src then
      let s := getH g.handles src
      let g1 := (release (getH g.handles dst) g).2
      { g1 with handles := (g1.handles.set dst s).set src emptySP }
    else g
  | .reset i =>
    -- lines 207-220 with `newPtr = nullptr`: release(); both fields null
    if i < g.handles.length then
      let g1 := (release (getH g.handles i) g).2
      { g1 with handles := g1.handles.set i emptySP }
    else g
  | .swapH i j =>
    -- lines 196-200: exchange both fields
    if i < g.handles.length ∧ j < g.handles.length then
      let a := getH g.handles i
      let b := getH g.handles j
      { g with handles := (g.handles.set i b).set j a }
    else g
  | .destroy i =>
    -- lines 153-156: the destructor just calls release()
    if i < g.handles.length then
      let g1 := (release (getH g.handles i) g).2
      { g1 with handles := g1.handles.set i emptySP }
    else g

/-- Run a sequence of operations. -/
def grun (g : GState) (ops : List GOp) : GState := ops.foldl gstep g

/-- The state right after `TSharedPointer(T* rawPtr)` (line 55) created the group
from a non-null raw pointer: one live handle, count cell `new int(1)`. -/
def g0 : GState := { handles := [fullSP], cellVal := 1, objFrees := 0, cellFrees := 0 }

/-- Number of live handles of the group whose fields are non-null. -/
def nFull (l : List TSharedPointer) : Nat := l.countP (fun s => decide (s = fullSP))

/-- Machine invariant: every handle aliases the group or is empty; while aliases
remain, the count cell holds exactly their number and nothing has been freed;
once the last alias has released, target and cell have each been freed once. -/
def GInv (g : GState) : Prop :=
  (∀ s ∈ g.handles, s = fullSP ∨ s = emptySP) ∧
  (0 < nFull g.handles →
    g.cellVal = nFull g.handles ∧ g.objFrees = 0 ∧ g.cellFrees = 0) ∧
  (nFull g.handles = 0 →
    g.cellVal = 0 ∧ g.objFrees = 1 ∧ g.cellFrees = 1)

/-!
Multi-cell heap view for the casting, weak-upgrade and component-lookup claims:
`cells c` is the current value of count cell `c`; `rty o` is the runtime type of
heap object `o`, and `sub a b` states that class `a` is `b` or derives from `b`
(the check C++ `dynamic_cast<U*>` performs).
-/

/-- Increment of the int cell `c`: the `++(*refCount)` of the aliasing ctor. -/
def bumpAt (cells : Nat → Int) (c : Nat) : Nat → Int :=
  Function.update cells c (cells c + 1)

/-- Source aliasing constructor `TSharedPointer(T* rawPtr, int* existingRefCount)`
(part_004 lines 63-67): adopts both fields and increments the count if the count
pointer is non-null. -/
def aliasConstruct (p : Option Nat) (rc : Option Nat) (cells : Nat → Int) :
    TSharedPointer × (Nat → Int) :=
  match rc with
  | some c => (⟨p, some c⟩, bumpAt cells c)
  | none => (⟨p, none⟩, cells)

/-- C++ `dynamic_cast<U*>(p)` semantics over the heap typing: null maps to null;
a non-null pointer survives iff the target's runtime type is `U` or derives
from `U`. -/
def dynCast (rty : Nat → Nat) (sub : Nat → Nat → Bool) (U : Nat) :
    Option Nat → Option Nat
  | none => none
  | some o => if sub (rty o) U then some o else none

/-- Source `dynamic_pointer_cast<U>` (part_004 lines 228-237): on cast success
return `TSharedPointer<U>(castedPtr, refCount)` (aliasing constructor, count
incremented); on failure return the empty `TSharedPointer<U>()`, count
untouched.  The argument handle itself is `const` and never modified. -/
def dynamic_pointer_cast (rty : Nat → Nat) (sub : Nat → Nat → Bool) (U : Nat)
    (h : TSharedPointer) (cells : Nat → Int) : TSharedPointer × (Nat → Int) :=
  match dynCast rty sub U h.ptr with
  | some o => aliasConstruct (some o) h.refCount cells
  | none => (emptySP, cells)

/-- Field model of `EngineUtilities::TWeakPointer<T>` (part_005): same two raw
fields as the shared handle, copied from the observed `TSharedPointer` without
incrementing. -/
structure TWeakPointer where
  ptr : Option Nat
  refCount : Option Nat
deriving DecidableEq, Repr

/-- Source `TWeakPointer::lock()` (part_005 lines 62-67):
`if (refCount && *refCount > 0) return TSharedPointer<T>(ptr, refCount);
 return TSharedPointer<T>();`. -/
def TWeakPointer.lock (w : TWeakPointer) (cells : Nat → Int) :
    TSharedPointer × (Nat → Int) :=
  match w.refCount with
  | some c =>
    if cells c > 0 then aliasConstruct w.ptr (some c) cells else (emptySP, cells)
  | none => (emptySP, cells)

/-- Handles producible by the public `TSharedPointer` operations the spec lists
(empty construction, construction from a raw pointer, copy, move, assignment,
reset, swap, `castTo`, weak upgrade), as a relation on the two fields.
Assignment and swap only redistribute field values already produced by the other
operations, so they are covered by `copyOf`/`movedFrom`/`emptyCons`.
`allowNullRaw` selects whether line 55 may be invoked with a *null* raw pointer
(it still allocates `new int(1)`).  The one branch condition that depends on a
count value (`lock`'s `*refCount > 0`) is over-approximated by admitting both
outcomes, which is sound for an invariant over all reachable handles. -/
inductive ReachSP (rty : Nat → Nat) (sub : Nat → Nat → Bool) (allowNullRaw : Bool) :
    TSharedPointer → Prop
  | emptyCons : ReachSP rty sub allowNullRaw emptySP
  | rawCons (p : Option Nat) (c : Nat) :
      p.isSome = true ∨ allowNullRaw = true →
      ReachSP rty sub allowNullRaw ⟨p, some c⟩
  | copyOf {s : TSharedPointer} :
      ReachSP rty sub allowNullRaw s → ReachSP rty sub allowNullRaw s
  | movedFrom {s : TSharedPointer} :
      ReachSP rty sub allowNullRaw s → ReachSP rty sub allowNullRaw emptySP
  | resetNull {s : TSharedPointer} :
      ReachSP rty sub allowNullRaw s → ReachSP rty sub allowNullRaw emptySP
  | resetRaw {s : TSharedPointer} (p c : Nat) :
      ReachSP rty sub allowNullRaw s → ReachSP rty sub allowNullRaw ⟨some p, some c⟩
  | castSucc {s : TSharedPointer} (o U : Nat) :
      ReachSP rty sub allowNullRaw s → s.ptr = some o → sub (rty o) U = true →
      ReachSP rty sub allowNullRaw ⟨some o, s.refCount⟩
  | castFail {s : TSharedPointer} (U : Nat) :
      ReachSP rty sub allowNullRaw s → ReachSP rty sub allowNullRaw emptySP
  | lockSucc {s : TSharedPointer} (c : Nat) :
      ReachSP rty sub allowNullRaw s → s.refCount = some c →
      ReachSP rty sub allowNullRaw ⟨s.ptr, s.refCount⟩
  | lockFail {s : TSharedPointer} :
      ReachSP rty sub allowNullRaw s → ReachSP rty sub allowNullRaw emptySP

/-- Source `Entity::getComponent<T>` (Entity.h lines 55-64) and the identical
`Actor::getComponent<T>` (part_002 lines 78-87): iterate the owned components in
insertion order; the first successful checked downcast is returned (its aliasing
constructor increments that component's count); if none succeeds, return the
empty handle.  A failed cast returns its cells unchanged, which are threaded on. -/
def getComponent (rty : Nat → Nat) (sub : Nat → Nat → Bool) (U : Nat) :
    List TSharedPointer → (Nat → Int) → TSharedPointer × (Nat → Int)
  | [], cells => (emptySP, cells)
  | comp :: rest, cells =>
    let r := dynamic_pointer_cast rty sub U comp cells
    if r.1.ptr.isSome then r else getComponent rty sub U rest r.2

/-- Field model of `EngineUtilities::TUniquePtr<T>` (TUniquePtr.h). -/
structure TUniquePtr where
  ptr : Option Nat
deriving DecidableEq, Repr

/-- Source `TUniquePtr::isNull` (TUniquePtr.h lines 153-156). -/
def TUniquePtr.isNull (u : TUniquePtr) : Bool := u.ptr = none

/-- World for `TUniquePtr` move-assignment: the two handle objects and the log
of `delete`s in program order. -/
structure UPWorld where
  dst : TUniquePtr
  src : TUniquePtr
  freed : List Nat
deriving DecidableEq, Repr

/-- Source `TUniquePtr::operator=(TUniquePtr&&)` (TUniquePtr.h lines 71-80):
`if (this != &other) { delete ptr; ptr = other.ptr; other.ptr = nullptr; }`.
`distinct` is the `this != &other` test; the `delete` of the old destination
pointer happens before the adoption, and deleting null frees nothing. -/
def upMoveAssign (w : UPWorld) (distinct : Bool) : UPWorld :=
  if distinct then
    { dst := ⟨w.src.ptr⟩, src := ⟨none⟩, freed := w.freed ++ w.dst.ptr.toList }
  else w

/-- Model of the per-type static slot of `EngineUtilities::TStaticPtr<T>`
(TStaticPtr.h line 113): the `instance` pointer plus the log of `delete`s. -/
structure StaticSlot where
  inst : Option Nat
  freed : List Nat
deriving DecidableEq, Repr

/-- Source `TStaticPtr::reset(T* rawPtr = nullptr)` (TStaticPtr.h lines
103-110): delete the current instance if present, then adopt `rawPtr`. -/
def TStaticPtr.reset (s : StaticSlot) (rawPtr : Option Nat) : StaticSlot :=
  match s.inst with
  | some i => { inst := rawPtr, freed := s.freed ++ [i] }
  | none => { s with inst := rawPtr }

/-- Source `TStaticPtr::get()` (TStaticPtr.h lines 81-84). -/
def TStaticPtr.get (s : StaticSlot) : Option Nat := s.inst

/-- Component-kind encoding for the concrete ECS hierarchy: `Component` is the
base class, `CShape` and `Transform` derive from it. -/
def componentTy : Nat := 0

def cshapeTy : Nat := 1

def transformTy : Nat := 2

/-- Derivation relation of the concrete hierarchy: every class is itself, and
the component classes derive from `Component`. -/
def ecsSub (a b : Nat) : Bool := a == b || b == componentTy

/-- Runtime types of the two heap objects allocated by `Actor::Actor(name)`
(Actor.cpp lines 3-14): object 0 is the `CShape`, object 1 the `Transform`. -/
def actorRty (o : Nat) : Nat :=
  if o == 0 then cshapeTy else if o == 1 then transformTy else componentTy

/-- Source `Entity::addComponent<T>` (Entity.h lines 44-48):
`components.push_back(component.template dynamic_pointer_cast<Component>());`
(the cast temporary is moved into the vector). -/
def addComponent (comps : List TSharedPointer) (h : TSharedPointer)
    (cells : Nat → Int) : List TSharedPointer × (Nat → Int) :=
  let r := dynamic_pointer_cast actorRty ecsSub componentTy h cells
  (comps ++ [r.1], r.2)

/-- Decrement of the int cell `c`: the `--(*refCount)` of `release()` when other
aliases remain. -/
def decAt (cells : Nat → Int) (c : Nat) : Nat → Int :=
  Function.update cells c (cells c - 1)

/-- Trace of `Actor::Actor(const std::string&)` (Actor.cpp lines 3-14):
`MakeShared<CShape>()` allocates object 0 with fresh count cell 0 holding 1;
`addComponent(shape)` pushes the upcast alias; `MakeShared<Transform>()`
allocates object 1 with cell 1; `addComponent(transform)`; the two local handles
release at scope exit (both counts stay positive, nothing is freed). -/
def actorConstruct : List TSharedPointer × (Nat → Int) :=
  let cells0 : Nat → Int := fun _ => 0
  let shape : TSharedPointer := ⟨some 0, some 0⟩
  let cells1 := Function.update cells0 0 1
  let r1 := addComponent [] shape cells1
  let transform : TSharedPointer := ⟨some 1, some 1⟩
  let cells2 := Function.update r1.2 1 1
  let r2 := addComponent r1.1 transform cells2
  (r2.1, decAt (decAt r2.2 1) 0)

/-- Model of `sf::Vector2f` over the reals.  The two `seek` scenarios of the
spec involve only values and operations that are exact in binary floating point
as well, so the real-number idealization agrees with the float source there. -/
structure Vector2f where
  x : ℝ
  y : ℝ

/-- Source `Transform::seek` (part_003 lines 55-67):
`direction = targetPosition - m_position;
 lenght = sqrt(direction.x*direction.x + direction.y*direction.y);
 if (lenght > range) { direction /= lenght;
                       m_position += direction * speed * deltaTime; }`.
Noncomputable only because `Real.sqrt` is. -/
noncomputable def Transform.seek (pos targetPosition : Vector2f)
    (speed deltaTime range : ℝ) : Vector2f :=
  let dx := targetPosition.x - pos.x
  let dy := targetPosition.y - pos.y
  let len := Real.sqrt (dx * dx + dy * dy)
  if len > range then
    ⟨pos.x + dx / len * speed * deltaTime, pos.y + dy / len * speed * deltaTime⟩
  else
    pos

/-- Reading a valid index through `getH`. -/
theorem getH_eq (l : List TSharedPointer) (i : Nat) (h : i < l.length) :
    getH l i = l[i] := by
  simp [getH, List.getElem?_eq_getElem h]

theorem getH_mem (l : List TSharedPointer) (i : Nat) (h : i < l.length) :
    getH l i ∈ l := by
  rw [getH_eq l i h]
  exact List.getElem_mem h

theorem nFull_append_single (l : List TSharedPointer) (s : TSharedPointer) :
    nFull (l ++ [s]) = nFull l + (if s = fullSP then 1 else 0) := by
  simp [nFull, List.countP_append, List.countP_cons]

theorem nFull_set (l : List TSharedPointer) (i : Nat) (v : TSharedPointer)
    (h : i < l.length) :
    nFull (l.set i v)
      = nFull l - (if l[i] = fullSP then 1 else 0) + (if v = fullSP then 1 else 0) := by
  simpa [nFull] using List.countP_set (fun s => decide (s = fullSP)) l i v h

theorem boole_le_nFull (l : List TSharedPointer) (i : Nat) (h : i < l.length) :
    (if l[i] = fullSP then 1 else 0) ≤ nFull l := by
  simpa [nFull] using List.boole_getElem_le_countP (fun s => decide (s = fullSP)) l i h

theorem one_le_nFull (l : List TSharedPointer) (i : Nat) (h : i < l.length)
    (hf : l[i] = fullSP) : 1 ≤ nFull l := by
  have hb := boole_le_nFull l i h
  simpa [hf] using hb

theorem two_le_nFull (l : List TSharedPointer) (i j : Nat) (hi : i < l.length)
    (hj : j < l.length) (hij : i ≠ j) (hfi : l[i] = fullSP) (hfj : l[j] = fullSP) :
    2 ≤ nFull l := by
  have h1 := nFull_set l i emptySP hi
  have hj' : j < (l.set i emptySP).length := by simpa using hj
  have hsetj : (l.set i emptySP)[j] = l[j] := List.getElem_set_ne hij hj'
  have h2 : 1 ≤ nFull (l.set i emptySP) :=
    one_le_nFull _ j hj' (by rw [hsetj]; exact hfj)
  have h3 : 1 ≤ nFull l := one_le_nFull l i hi hfi
  have hif1 : (if (fullSP : TSharedPointer) = fullSP then (1 : Nat) else 0) = 1 := by simp
  have hif2 : (if (emptySP : TSharedPointer) = fullSP then (1 : Nat) else 0) = 0 := by
    simp [emptySP, fullSP]
  rw [hfi, hif1, hif2] at h1
  omega

theorem fullOrEmpty_set (l : List TSharedPointer) (i : Nat) (v : TSharedPointer)
    (hl : ∀ s ∈ l, s = fullSP ∨ s = emptySP) (hv : v = fullSP ∨ v = emptySP) :
    ∀ s ∈ l.set i v, s = fullSP ∨ s = emptySP := by
  intro s hs
  rcases List.mem_or_eq_of_mem_set hs with h | h
  · exact hl s h
  · subst h; exact hv

/-- Releasing an empty handle is a no-op on the heap. -/
theorem release_empty (g : GState) : release emptySP g = (emptySP, g) := rfl

/-- Releasing a group alias when the count is about to reach zero frees target
and cell exactly once and zeroes the cell. -/
theorem release_full_last (g : GState) (h : g.cellVal = 1) :
    release fullSP g
      = (emptySP, { g with cellVal := 0, objFrees := g.objFrees + 1,
                           cellFrees := g.cellFrees + 1 }) := by
  simp only [release, fullSP, h]
  norm_num

/-- Releasing a group alias when other aliases remain only decrements the count. -/
theorem release_full_keep (g : GState) (h : g.cellVal ≠ 1) :
    release fullSP g = (emptySP, { g with cellVal := g.cellVal - 1 }) := by
  simp only [release, fullSP]
  rw [if_neg (by omega)]

theorem rc_full : fullSP.refCount.isSome = true := rfl

theorem rc_empty : emptySP.refCount.isSome = false := rfl

theorem if_of_full {x : TSharedPointer} (h : x = fullSP) :
    (if x = fullSP then (1 : Nat) else 0) = 1 := by simp [h]

theorem if_of_empty {x : TSharedPointer} (h : x = emptySP) :
    (if x = fullSP then (1 : Nat) else 0) = 0 := by
  subst h; simp [emptySP, fullSP]

theorem nFull_set_ee (l : List TSharedPointer) (i : Nat) (h : i < l.length)
    (he : l[i] = emptySP) : nFull (l.set i emptySP) = nFull l := by
  rw [nFull_set l i emptySP h, if_of_empty he, if_of_empty rfl]
  omega

theorem nFull_set_fe (l : List TSharedPointer) (i : Nat) (h : i < l.length)
    (hf : l[i] = fullSP) : nFull (l.set i emptySP) = nFull l - 1 := by
  rw [nFull_set l i emptySP h, if_of_full hf, if_of_empty rfl]
  omega

theorem nFull_set_ef (l : List TSharedPointer) (i : Nat) (h : i < l.length)
    (he : l[i] = emptySP) : nFull (l.set i fullSP) = nFull l + 1 := by
  rw [nFull_set l i fullSP h, if_of_empty he, if_of_full rfl]
  omega

theorem nFull_set_ff (l : List TSharedPointer) (i : Nat) (h : i < l.length)
    (hf : l[i] = fullSP) : nFull (l.set i fullSP) = nFull l := by
  have h1 := one_le_nFull l i h hf
  rw [nFull_set l i fullSP h, if_of_full hf, if_of_full rfl]
  omega

theorem fullOrEmpty_append (l : List TSharedPointer) (v : TSharedPointer)
    (hl : ∀ s ∈ l, s = fullSP ∨ s = emptySP) (hv : v = fullSP ∨ v = emptySP) :
    ∀ s ∈ l ++ [v], s = fullSP ∨ s = emptySP := by
  intro s hs
  rcases List.mem_append.1 hs with h | h
  · exact hl s h
  · rw [List.mem_singleton] at h; subst h; exact hv

theorem GInv_copyCons (g : GState) (src : Nat) (hg : GInv g) :
    GInv (gstep g (GOp.copyCons src)) := by
  obtain ⟨hfe, hpos, hzero⟩ := hg
  by_cases h : src < g.handles.length
  · have hget := getH_eq g.handles src h
    rcases hfe _ (List.getElem_mem h) with hf | he
    · have h1 : 1 ≤ nFull g.handles := one_le_nFull _ src h hf
      obtain ⟨hcv, hof, hcf⟩ := hpos (by omega)
      have hstate : gstep g (GOp.copyCons src)
          = { g with handles := g.handles ++ [fullSP], cellVal := g.cellVal + 1 } := by
        simp [gstep, if_pos h, hget, hf, rc_full]
      rw [hstate]
      have hn : nFull (g.handles ++ [fullSP]) = nFull g.handles + 1 := by
        rw [nFull_append_single, if_of_full rfl]
      refine ⟨fullOrEmpty_append _ _ hfe (Or.inl rfl), ?_, ?_⟩
      · intro _
        refine ⟨?_, hof, hcf⟩
        dsimp only
        rw [hn, hcv]
        push_cast
        ring
      · intro hz
        dsimp only at hz
        rw [hn] at hz
        omega
    · have hstate : gstep g (GOp.copyCons src)
          = { g with handles := g.handles ++ [emptySP] } := by
        simp [gstep, if_pos h, hget, he, rc_empty]
      rw [hstate]
      have hn : nFull (g.handles ++ [emptySP]) = nFull g.handles := by
        rw [nFull_append_single, if_of_empty rfl]
        omega
      refine ⟨fullOrEmpty_append _ _ hfe (Or.inr rfl), ?_, ?_⟩
      · intro hp
        dsimp only at hp ⊢
        rw [hn] at hp ⊢
        exact hpos hp
      · intro hz
        dsimp only at hz ⊢
        rw [hn] at hz
        exact hzero hz
  · have hstate : gstep g (GOp.copyCons src) = g := by
      simp [gstep, if_neg h]
    rw [hstate]
    exact ⟨hfe, hpos, hzero⟩

theorem GInv_moveCons (g : GState) (src : Nat) (hg : GInv g) :
    GInv (gstep g (GOp.moveCons src)) := by
  obtain ⟨hfe, hpos, hzero⟩ := hg
  by_cases h : src < g.handles.length
  · have hget := getH_eq g.handles src h
    rcases hfe _ (List.getElem_mem h) with hf | he
    · have h1 : 1 ≤ nFull g.handles := one_le_nFull _ src h hf
      have hstate : gstep g (GOp.moveCons src)
          = { g with handles := g.handles.set src emptySP ++ [fullSP] } := by
        simp [gstep, if_pos h, hget, hf]
      rw [hstate]
      have hn : nFull (g.handles.set src emptySP ++ [fullSP]) = nFull g.handles := by
        rw [nFull_append_single, if_of_full rfl, nFull_set_fe g.handles src h hf]
        omega
      refine ⟨fullOrEmpty_append _ _ (fullOrEmpty_set _ _ _ hfe (Or.inr rfl)) (Or.inl rfl),
        ?_, ?_⟩
      · intro hp
        dsimp only at hp ⊢
        rw [hn] at hp ⊢
        exact hpos hp
      · intro hz
        dsimp only at hz ⊢
        rw [hn] at hz
        exact hzero hz
    · have hstate : gstep g (GOp.moveCons src)
          = { g with handles := g.handles.set src emptySP ++ [emptySP] } := by
        simp [gstep, if_pos h, hget, he]
      rw [hstate]
      have hn : nFull (g.handles.set src emptySP ++ [emptySP]) = nFull g.handles := by
        rw [nFull_append_single, if_of_empty rfl, nFull_set_ee g.handles src h he]
        omega
      refine ⟨fullOrEmpty_append _ _ (fullOrEmpty_set _ _ _ hfe (Or.inr rfl)) (Or.inr rfl),
        ?_, ?_⟩
      · intro hp
        dsimp only at hp ⊢
        rw [hn] at hp ⊢
        exact hpos hp
      · intro hz
        dsimp only at hz ⊢
        rw [hn] at hz
        exact hzero hz
  · have hstate : gstep g (GOp.moveCons src) = g := by
      simp [gstep, if_neg h]
    rw [hstate]
    exact ⟨hfe, hpos, hzero⟩

theorem GInv_copyAssign (g : GState) (dst src : Nat) (hg : GInv g) :
    GInv (gstep g (GOp.copyAssign dst src)) := by
  obtain ⟨hfe, hpos, hzero⟩ := hg
  by_cases hcond : dst < g.handles.length ∧ src < g.handles.length ∧ dst ≠ src
  · have hdst := hcond.1
    have hsrc := hcond.2.1
    have hne := hcond.2.2
    have hd := getH_eq g.handles dst hdst
    have hs := getH_eq g.handles src hsrc
    rcases hfe _ (List.getElem_mem hdst) with hdf | hde
    · rcases hfe _ (List.getElem_mem hsrc) with hsf | hse
      · -- destination and source both alias the group: count net unchanged
        have h2 : 2 ≤ nFull g.handles := two_le_nFull _ dst src hdst hsrc hne hdf hsf
        obtain ⟨hcv, hof, hcf⟩ := hpos (by omega)
        have hcv1 : g.cellVal ≠ 1 := by omega
        have hstate : gstep g (GOp.copyAssign dst src)
            = { g with handles := g.handles.set dst fullSP, cellVal := g.cellVal - 1 + 1 } := by
          simp [gstep, hdst, hsrc, hne, hd, hs, hdf, hsf, release_full_keep g hcv1, rc_full]
        rw [hstate]
        have hn : nFull (g.handles.set dst fullSP) = nFull g.handles :=
          nFull_set_ff g.handles dst hdst hdf
        refine ⟨fullOrEmpty_set _ _ _ hfe (Or.inl rfl), ?_, ?_⟩
        · intro hp
          dsimp only at hp ⊢
          rw [hn] at hp ⊢
          exact ⟨by omega, hof, hcf⟩
        · intro hz
          dsimp only at hz
          rw [hn] at hz
          exact absurd hz (by omega)
      · -- destination releases its alias, source is empty
        have h1 : 1 ≤ nFull g.handles := one_le_nFull _ dst hdst hdf
        obtain ⟨hcv, hof, hcf⟩ := hpos (by omega)
        have hn : nFull (g.handles.set dst emptySP) = nFull g.handles - 1 :=
          nFull_set_fe g.handles dst hdst hdf
        by_cases hone : nFull g.handles = 1
        · -- the last alias went away: frees happen now
          have hcv1 : g.cellVal = 1 := by omega
          have hstate : gstep g (GOp.copyAssign dst src)
              = { handles := g.handles.set dst emptySP, cellVal := 0,
                  objFrees := g.objFrees + 1, cellFrees := g.cellFrees + 1 } := by
            simp [gstep, hdst, hsrc, hne, hd, hs, hdf, hse, release_full_last g hcv1, rc_empty]
          rw [hstate]
          refine ⟨fullOrEmpty_set _ _ _ hfe (Or.inr rfl), ?_, ?_⟩
          · intro hp
            dsimp only at hp
            rw [hn] at hp
            exact absurd hp (by omega)
          · intro _
            dsimp only
            exact ⟨rfl, by omega, by omega⟩
        · -- other aliases remain: just decrement
          have hstate : gstep g (GOp.copyAssign dst src)
              = { g with handles := g.handles.set dst emptySP, cellVal := g.cellVal - 1 } := by
            simp [gstep, hdst, hsrc, hne, hd, hs, hdf, hse, release_full_keep g (by omega),
              rc_empty]
          rw [hstate]
          refine ⟨fullOrEmpty_set _ _ _ hfe (Or.inr rfl), ?_, ?_⟩
          · intro hp
            dsimp only at hp ⊢
            rw [hn] at hp ⊢
            exact ⟨by omega, hof, hcf⟩
          · intro hz
            dsimp only at hz
            rw [hn] at hz
            exact absurd hz (by omega)
    · rcases hfe _ (List.getElem_mem hsrc) with hsf | hse
      · -- destination empty, source aliases the group: count incremented
        have h1 : 1 ≤ nFull g.handles := one_le_nFull _ src hsrc hsf
        obtain ⟨hcv, hof, hcf⟩ := hpos (by omega)
        have hstate : gstep g (GOp.copyAssign dst src)
            = { g with handles := g.handles.set dst fullSP, cellVal := g.cellVal + 1 } := by
          simp [gstep, hdst, hsrc, hne, hd, hs, hde, hsf, release_empty, rc_full]
        rw [hstate]
        have hn : nFull (g.handles.set dst fullSP) = nFull g.handles + 1 :=
          nFull_set_ef g.handles dst hdst hde
        refine ⟨fullOrEmpty_set _ _ _ hfe (Or.inl rfl), ?_, ?_⟩
        · intro hp
          dsimp only at hp ⊢
          rw [hn] at hp ⊢
          exact ⟨by omega, hof, hcf⟩
        · intro hz
          dsimp only at hz
          rw [hn] at hz
          exact absurd hz (by omega)
      · -- both empty: nothing observable changes
        have hstate : gstep g (GOp.copyAssign dst src)
            = { g with handles := g.handles.set dst emptySP } := by
          simp [gstep, hdst, hsrc, hne, hd, hs, hde, hse, release_empty, rc_empty]
        rw [hstate]
        have hn : nFull (g.handles.set dst emptySP) = nFull g.handles :=
          nFull_set_ee g.handles dst hdst hde
        refine ⟨fullOrEmpty_set _ _ _ hfe (Or.inr rfl), ?_, ?_⟩
        · intro hp
          dsimp only at hp ⊢
          rw [hn] at hp ⊢
          exact hpos hp
        · intro hz
          dsimp only at hz ⊢
          rw [hn] at hz
          exact hzero hz
  · have hstate : gstep g (GOp.copyAssign dst src) = g := by
      simp only [gstep, if_neg hcond]
    rw [hstate]
    exact ⟨hfe, hpos, hzero⟩

theorem GInv_moveAssign (g : GState) (dst src : Nat) (hg : GInv g) :
    GInv (gstep g (GOp.moveAssign dst src)) := by
  obtain ⟨hfe, hpos, hzero⟩ := hg
  by_cases hcond : dst < g.handles.length ∧ src < g.handles.length ∧ dst ≠ src
  · have hdst := hcond.1
    have hsrc := hcond.2.1
    have hne := hcond.2.2
    have hd := getH_eq g.handles dst hdst
    have hs := getH_eq g.handles src hsrc
    rcases hfe _ (List.getElem_mem hdst) with hdf | hde
    · rcases hfe _ (List.getElem_mem hsrc) with hsf | hse
      · -- both full: destination releases, then steals the source's alias
        have h2 : 2 ≤ nFull g.handles := two_le_nFull _ dst src hdst hsrc hne hdf hsf
        obtain ⟨hcv, hof, hcf⟩ := hpos (by omega)
        have hcv1 : g.cellVal ≠ 1 := by omega
        have hstate : gstep g (GOp.moveAssign dst src)
            = { g with handles := (g.handles.set dst fullSP).set src emptySP,
                       cellVal := g.cellVal - 1 } := by
          simp [gstep, hdst, hsrc, hne, hd, hs, hdf, hsf, release_full_keep g hcv1]
        rw [hstate]
        have hlen1 : src < (g.handles.set dst fullSP).length := by simpa using hsrc
        have hmid : (g.handles.set dst fullSP)[src] = g.handles[src] :=
          List.getElem_set_ne hne hlen1
        have hn : nFull ((g.handles.set dst fullSP).set src emptySP)
            = nFull g.handles - 1 := by
          have ha := nFull_set_ff g.handles dst hdst hdf
          have hb := nFull_set_fe (g.handles.set dst fullSP) src hlen1
            (by rw [hmid]; exact hsf)
          omega
        refine ⟨fullOrEmpty_set _ _ _ (fullOrEmpty_set _ _ _ hfe (Or.inl rfl)) (Or.inr rfl),
          ?_, ?_⟩
        · intro hp
          dsimp only at hp ⊢
          rw [hn] at hp ⊢
          exact ⟨by omega, hof, hcf⟩
        · intro hz
          dsimp only at hz
          rw [hn] at hz
          exact absurd hz (by omega)
      · -- destination full, source empty
        have h1 : 1 ≤ nFull g.handles := one_le_nFull _ dst hdst hdf
        obtain ⟨hcv, hof, hcf⟩ := hpos (by omega)
        have hlen1 : src < (g.handles.set dst emptySP).length := by simpa using hsrc
        have hmid : (g.handles.set dst emptySP)[src] = g.handles[src] :=
          List.getElem_set_ne hne hlen1
        have hn : nFull ((g.handles.set dst emptySP).set src emptySP)
            = nFull g.handles - 1 := by
          have ha := nFull_set_fe g.handles dst hdst hdf
          have hb := nFull_set_ee (g.handles.set dst emptySP) src hlen1
            (by rw [hmid]; exact hse)
          omega
        by_cases hone : nFull g.handles = 1
        · have hcv1 : g.cellVal = 1 := by omega
          have hstate : gstep g (GOp.moveAssign dst src)
              = { handles := (g.handles.set dst emptySP).set src emptySP, cellVal := 0,
                  objFrees := g.objFrees + 1, cellFrees := g.cellFrees + 1 } := by
            simp [gstep, hdst, hsrc, hne, hd, hs, hdf, hse, release_full_last g hcv1]
          rw [hstate]
          refine ⟨fullOrEmpty_set _ _ _ (fullOrEmpty_set _ _ _ hfe (Or.inr rfl)) (Or.inr rfl),
            ?_, ?_⟩
          · intro hp
            dsimp only at hp
            rw [hn] at hp
            exact absurd hp (by omega)
          · intro _
            dsimp only
            exact ⟨rfl, by omega, by omega⟩
        · have hstate : gstep g (GOp.moveAssign dst src)
              = { g with handles := (g.handles.set dst emptySP).set src emptySP,
                         cellVal := g.cellVal - 1 } := by
            simp [gstep, hdst, hsrc, hne, hd, hs, hdf, hse, release_full_keep g (by omega)]
          rw [hstate]
          refine ⟨fullOrEmpty_set _ _ _ (fullOrEmpty_set _ _ _ hfe (Or.inr rfl)) (Or.inr rfl),
            ?_, ?_⟩
          · intro hp
            dsimp only at hp ⊢
            rw [hn] at hp ⊢
            exact ⟨by omega, hof, hcf⟩
          · intro hz
            dsimp only at hz
            rw [hn] at hz
            exact absurd hz (by omega)
    · rcases hfe _ (List.getElem_mem hsrc) with hsf | hse
      · -- destination empty, source full: pure transfer, count untouched
        have h1 : 1 ≤ nFull g.handles := one_le_nFull _ src hsrc hsf
        obtain ⟨hcv, hof, hcf⟩ := hpos (by omega)
        have hstate : gstep g (GOp.moveAssign dst src)
            = { g with handles := (g.handles.set dst fullSP).set src emptySP } := by
          simp [gstep, hdst, hsrc, hne, hd, hs, hde, hsf, release_empty]
        rw [hstate]
        have hlen1 : src < (g.handles.set dst fullSP).length := by simpa using hsrc
        have hmid : (g.handles.set dst fullSP)[src] = g.handles[src] :=
          List.getElem_set_ne hne hlen1
        have hn : nFull ((g.handles.set dst fullSP).set src emptySP) = nFull g.handles := by
          have ha := nFull_set_ef g.handles dst hdst hde
          have hb := nFull_set_fe (g.handles.set dst fullSP) src hlen1
            (by rw [hmid]; exact hsf)
          omega
        refine ⟨fullOrEmpty_set _ _ _ (fullOrEmpty_set _ _ _ hfe (Or.inl rfl)) (Or.inr rfl),
          ?_, ?_⟩
        · intro hp
          dsimp only at hp ⊢
          rw [hn] at hp ⊢
          exact ⟨by omega, hof, hcf⟩
        · intro hz
          dsimp only at hz
          rw [hn] at hz
          exact absurd hz (by omega)
      · -- both empty
        have hstate : gstep g (GOp.moveAssign dst src)
            = { g with handles := (g.handles.set dst emptySP).set src emptySP } := by
          simp [gstep, hdst, hsrc, hne, hd, hs, hde, hse, release_empty]
        rw [hstate]
        have hlen1 : src < (g.handles.set dst emptySP).length := by simpa using hsrc
        have hmid : (g.handles.set dst emptySP)[src] = g.handles[src] :=
          List.getElem_set_ne hne hlen1
        have hn : nFull ((g.handles.set dst emptySP).set src emptySP) = nFull g.handles := by
          have ha := nFull_set_ee g.handles dst hdst hde
          have hb := nFull_set_ee (g.handles.set dst emptySP) src hlen1
            (by rw [hmid]; exact hse)
          omega
        refine ⟨fullOrEmpty_set _ _ _ (fullOrEmpty_set _ _ _ hfe (Or.inr rfl)) (Or.inr rfl),
          ?_, ?_⟩
        · intro hp
          dsimp only at hp ⊢
          rw [hn] at hp ⊢
          exact hpos hp
        · intro hz
          dsimp only at hz ⊢
          rw [hn] at hz
          exact hzero hz
  · have hstate : gstep g (GOp.moveAssign dst src) = g := by
      simp only [gstep, if_neg hcond]
    rw [hstate]
    exact ⟨hfe, hpos, hzero⟩

theorem GInv_resetOp (g : GState) (i : Nat) (hg : GInv g) :
    GInv (gstep g (GOp.reset i)) := by
  obtain ⟨hfe, hpos, hzero⟩ := hg
  by_cases h : i < g.handles.length
  · have hget := getH_eq g.handles i h
    rcases hfe _ (List.getElem_mem h) with hf | he
    · have h1 : 1 ≤ nFull g.handles := one_le_nFull _ i h hf
      obtain ⟨hcv, hof, hcf⟩ := hpos (by omega)
      have hn : nFull (g.handles.set i emptySP) = nFull g.handles - 1 :=
        nFull_set_fe g.handles i h hf
      by_cases hone : nFull g.handles = 1
      · have hcv1 : g.cellVal = 1 := by omega
        have hstate : gstep g (GOp.reset i)
            = { handles := g.handles.set i emptySP, cellVal := 0,
                objFrees := g.objFrees + 1, cellFrees := g.cellFrees + 1 } := by
          simp [gstep, h, hget, hf, release_full_last g hcv1]
        rw [hstate]
        refine ⟨fullOrEmpty_set _ _ _ hfe (Or.inr rfl), ?_, ?_⟩
        · intro hp
          dsimp only at hp
          rw [hn] at hp
          exact absurd hp (by omega)
        · intro _
          dsimp only
          exact ⟨rfl, by omega, by omega⟩
      · have hstate : gstep g (GOp.reset i)
            = { g with handles := g.handles.set i emptySP, cellVal := g.cellVal - 1 } := by
          simp [gstep, h, hget, hf, release_full_keep g (by omega)]
        rw [hstate]
        refine ⟨fullOrEmpty_set _ _ _ hfe (Or.inr rfl), ?_, ?_⟩
        · intro hp
          dsimp only at hp ⊢
          rw [hn] at hp ⊢
          exact ⟨by omega, hof, hcf⟩
        · intro hz
          dsimp only at hz
          rw [hn] at hz
          exact absurd hz (by omega)
    · have hstate : gstep g (GOp.reset i)
          = { g with handles := g.handles.set i emptySP } := by
        simp [gstep, h, hget, he, release_empty]
      rw [hstate]
      have hn : nFull (g.handles.set i emptySP) = nFull g.handles :=
        nFull_set_ee g.handles i h he
      refine ⟨fullOrEmpty_set _ _ _ hfe (Or.inr rfl), ?_, ?_⟩
      · intro hp
        dsimp only at hp ⊢
        rw [hn] at hp ⊢
        exact hpos hp
      · intro hz
        dsimp only at hz ⊢
        rw [hn] at hz
        exact hzero hz
  · have hstate : gstep g (GOp.reset i) = g := by
      simp only [gstep, if_neg h]
    rw [hstate]
    exact ⟨hfe, hpos, hzero⟩

theorem GInv_swapOp (g : GState) (i j : Nat) (hg : GInv g) :
    GInv (gstep g (GOp.swapH i j)) := by
  obtain ⟨hfe, hpos, hzero⟩ := hg
  by_cases hcond : i < g.handles.length ∧ j < g.handles.length
  · have hi := hcond.1
    have hj := hcond.2
    have hgi := getH_eq g.handles i hi
    have hgj := getH_eq g.handles j hj
    by_cases hij : i = j
    · subst hij
      have hstate : gstep g (GOp.swapH i i)
          = { g with handles := g.handles.set i (g.handles[i]) } := by
        simp [gstep, hi, hgi, List.set_set]
      rw [hstate]
      have hn : nFull (g.handles.set i (g.handles[i])) = nFull g.handles := by
        rcases hfe _ (List.getElem_mem hi) with hf | he
        · rw [hf]; exact nFull_set_ff g.handles i hi hf
        · rw [he]; exact nFull_set_ee g.handles i hi he
      refine ⟨fullOrEmpty_set _ _ _ hfe (hfe _ (List.getElem_mem hi)), ?_, ?_⟩
      · intro hp
        dsimp only at hp ⊢
        rw [hn] at hp ⊢
        exact hpos hp
      · intro hz
        dsimp only at hz ⊢
        rw [hn] at hz
        exact hzero hz
    · have hstate : gstep g (GOp.swapH i j)
          = { g with handles := (g.handles.set i (g.handles[j])).set j (g.handles[i]) } := by
        simp [gstep, hi, hj, hgi, hgj]
      rw [hstate]
      have hlen1 : j < (g.handles.set i (g.handles[j])).length := by simpa using hj
      have hmid : (g.handles.set i (g.handles[j]))[j] = g.handles[j] :=
        List.getElem_set_ne hij hlen1
      have t1 := nFull_set g.handles i (g.handles[j]) hi
      have t2 := nFull_set (g.handles.set i (g.handles[j])) j (g.handles[i]) hlen1
      rw [hmid] at t2
      have hb1 := boole_le_nFull g.handles i hi
      have hn : nFull ((g.handles.set i (g.handles[j])).set j (g.handles[i]))
          = nFull g.handles := by omega
      refine ⟨fullOrEmpty_set _ _ _ (fullOrEmpty_set _ _ _ hfe (hfe _ (List.getElem_mem hj)))
        (hfe _ (List.getElem_mem hi)), ?_, ?_⟩
      · intro hp
        dsimp only at hp ⊢
        rw [hn] at hp ⊢
        exact hpos hp
      · intro hz
        dsimp only at hz ⊢
        rw [hn] at hz
        exact hzero hz
  · have hstate : gstep g (GOp.swapH i j) = g := by
      simp only [gstep, if_neg hcond]
    rw [hstate]
    exact ⟨hfe, hpos, hzero⟩

/-- The destructor body is the `reset(nullptr)` body: both just `release()`. -/
theorem gstep_destroy_eq_reset (g : GState) (i : Nat) :
    gstep g (GOp.destroy i) = gstep g (GOp.reset i) := rfl

theorem GInv_gstep (g : GState) (op : GOp) (hg : GInv g) : GInv (gstep g op) := by
  cases op with
  | copyCons src => exact GInv_copyCons g src hg
  | moveCons src => exact GInv_moveCons g src hg
  | copyAssign dst src => exact GInv_copyAssign g dst src hg
  | moveAssign dst src => exact GInv_moveAssign g dst src hg
  | reset i => exact GInv_resetOp g i hg
  | swapH i j => exact GInv_swapOp g i j hg
  | destroy i => rw [gstep_destroy_eq_reset]; exact GInv_resetOp g i hg

theorem GInv_grun (g : GState) (ops : List GOp) (hg : GInv g) : GInv (grun g ops) := by
  induction ops generalizing g with
  | nil => exact hg
  | cons op rest ih => exact ih (gstep g op) (GInv_gstep g op hg)

theorem GInv_g0 : GInv g0 :=
  ⟨by decide, fun _ => by decide, fun hz => absurd hz (by decide)⟩

/-- C1: for every finite sequence of operations (construct-from-raw creating the
group, then copy/move construction, copy/move assignment, reset, swap, destroy)
on one ownership group, after each step the shared integer reference count equals
the number of live handles of the group whose fields are non-null; the target
object and the count cell are each freed exactly once, at the step where the
count transitions from 1 to 0.  Stated over every reachable state `grun g0 ops`
(every prefix of a sequence is itself a sequence): while aliases remain the cell
equals their number and no free has occurred; once none remain, exactly one free
of each has occurred; and any step taking the alias count from 1 to 0 performs
both frees at that step. -/
theorem sharedGroup_refcount_invariant (ops : List GOp) :
    (0 < nFull (grun g0 ops).handles →
      (grun g0 ops).cellVal = nFull (grun g0 ops).handles ∧
      (grun g0 ops).objFrees = 0 ∧ (grun g0 ops).cellFrees = 0) ∧
    (nFull (grun g0 ops).handles = 0 →
      (grun g0 ops).objFrees = 1 ∧ (grun g0 ops).cellFrees = 1) ∧
    (∀ op : GOp, nFull (grun g0 ops).handles = 1 →
      nFull (gstep (grun g0 ops) op).handles = 0 →
      (grun g0 ops).objFrees = 0 ∧ (gstep (grun g0 ops) op).objFrees = 1 ∧
      (grun g0 ops).cellFrees = 0 ∧ (gstep (grun g0 ops) op).cellFrees = 1) := by
  have hI := GInv_grun g0 ops GInv_g0
  obtain ⟨hfe, hpos, hzero⟩ := hI
  refine ⟨hpos, fun hz => ⟨(hzero hz).2.1, (hzero hz).2.2⟩, ?_⟩
  intro op h1 h0
  obtain ⟨_, _, hzero2⟩ := GInv_gstep (grun g0 ops) op ⟨hfe, hpos, hzero⟩
  exact ⟨(hpos (by omega)).2.1, (hzero2 h0).2.1, (hpos (by omega)).2.2, (hzero2 h0).2.2⟩

/-- Concrete instantiation of `sharedGroup_refcount_invariant`: a copy raises the
count to 2 with no frees; a destroy of the only alias frees both; and the
destroy step itself is the 1-to-0 transition performing the frees. -/
theorem sharedGroup_refcount_invariant_witness :
    ((grun g0 [GOp.copyCons 0]).cellVal = nFull (grun g0 [GOp.copyCons 0]).handles ∧
      (grun g0 [GOp.copyCons 0]).objFrees = 0 ∧ (grun g0 [GOp.copyCons 0]).cellFrees = 0) ∧
    ((grun g0 [GOp.destroy 0]).objFrees = 1 ∧ (grun g0 [GOp.destroy 0]).cellFrees = 1) ∧
    ((grun g0 []).objFrees = 0 ∧ (gstep (grun g0 []) (GOp.destroy 0)).objFrees = 1 ∧
      (grun g0 []).cellFrees = 0 ∧ (gstep (grun g0 []) (GOp.destroy 0)).cellFrees = 1) :=
  ⟨(sharedGroup_refcount_invariant [GOp.copyCons 0]).1 (by decide),
   (sharedGroup_refcount_invariant [GOp.destroy 0]).2.1 (by decide),
   (sharedGroup_refcount_invariant []).2.2 (GOp.destroy 0) (by decide) (by decide)⟩

/-- Whatever `release()` does to the heap, it never touches the handle list. -/
theorem release_preserves_handles (sp : TSharedPointer) (g : GState) :
    (release sp g).2.handles = g.handles := by
  rcases sp with ⟨p, rc⟩
  cases rc
  · rfl
  · simp only [release]
    split <;> rfl

/-- C5: every ownership-releasing path (copy assignment, move assignment,
`reset`, destruction) goes through `release()` (lines 246-255), which nulls the
handle's own `ptr` and `refCount` fields regardless of whether the count reached
zero; a second release of the handle therefore finds `refCount == nullptr`,
decrements nothing and frees nothing, so one handle can never free the same
target or count twice.  The last conjunct checks the two operations that leave
the released handle visible (`reset`, destruction): the slot is null afterwards. -/
theorem release_nulls_own_fields (sp : TSharedPointer) (g g' : GState) :
    (release sp g).1 = emptySP ∧
    release (release sp g).1 g' = (emptySP, g') ∧
    (∀ (h : GState) (i : Nat), i < h.handles.length →
      getH (gstep h (GOp.reset i)).handles i = emptySP ∧
      getH (gstep h (GOp.destroy i)).handles i = emptySP) := by
  have hfst : ∀ (sp : TSharedPointer) (g : GState), (release sp g).1 = emptySP := by
    intro sp g
    rcases sp with ⟨p, rc⟩
    cases rc
    · rfl
    · simp only [release]
      split <;> rfl
  refine ⟨hfst sp g, by rw [hfst sp g]; exact release_empty g', ?_⟩
  intro h i hi
  have hreset : getH (gstep h (GOp.reset i)).handles i = emptySP := by
    have hh : (gstep h (GOp.reset i)).handles
        = (release (getH h.handles i) h).2.handles.set i emptySP := by
      simp [gstep, hi]
    rw [hh, release_preserves_handles]
    have hi' : i < (h.handles.set i emptySP).length := by simpa using hi
    rw [getH_eq _ i hi']
    exact List.getElem_set_self hi'
  exact ⟨hreset, by rw [gstep_destroy_eq_reset]; exact hreset⟩

/-- Concrete instantiation of `release_nulls_own_fields` at the sole handle of a
freshly constructed group: resetting or destroying it leaves a null slot. -/
theorem release_nulls_own_fields_witness :
    (release fullSP g0).1 = emptySP ∧
    release (release fullSP g0).1 g0 = (emptySP, g0) ∧
    (0 < g0.handles.length ∧
      getH (gstep g0 (GOp.reset 0)).handles 0 = emptySP ∧
      getH (gstep g0 (GOp.destroy 0)).handles 0 = emptySP) := by
  have h := release_nulls_own_fields fullSP g0 g0
  exact ⟨h.1, h.2.1, by decide, h.2.2 g0 0 (by decide)⟩

/-- The handle part of the aliasing constructor is the two adopted fields. -/
theorem aliasConstruct_fst (p rc : Option Nat) (cells : Nat → Int) :
    (aliasConstruct p rc cells).1 = ⟨p, rc⟩ := by
  cases rc <;> rfl

/-- C2: `castTo<U>` (`dynamic_pointer_cast<U>`, part_004 lines 228-237): when
the runtime type of the target is U or derives from U, the result is a new
handle aliasing the same target and count pointer and the group's count cell is
incremented by exactly one with no other cell changed; when the target is null
or not assignable to U, the result is the empty handle and no count is touched
(no partial increment) — the original handle, a `const` receiver, is never
modified. -/
theorem castTo_spec (rty : Nat → Nat) (sub : Nat → Nat → Bool) (U : Nat)
    (h : TSharedPointer) (cells : Nat → Int) :
    (∀ o, h.ptr = some o → sub (rty o) U = true →
      (dynamic_pointer_cast rty sub U h cells).1 = ⟨some o, h.refCount⟩ ∧
      ∀ c, h.refCount = some c →
        (dynamic_pointer_cast rty sub U h cells).2 c = cells c + 1 ∧
        ∀ c', c' ≠ c → (dynamic_pointer_cast rty sub U h cells).2 c' = cells c') ∧
    (h.ptr = none ∨ (∃ o, h.ptr = some o ∧ sub (rty o) U = false) →
      dynamic_pointer_cast rty sub U h cells = (emptySP, cells)) := by
  constructor
  · intro o ho hsub
    have hd : dynCast rty sub U h.ptr = some o := by simp [dynCast, ho, hsub]
    constructor
    · simp [dynamic_pointer_cast, hd, aliasConstruct_fst]
    · intro c hc
      constructor
      · simp [dynamic_pointer_cast, hd, hc, aliasConstruct, bumpAt, Function.update_same]
      · intro c' hc'
        simp [dynamic_pointer_cast, hd, hc, aliasConstruct, bumpAt,
          Function.update_noteq hc']
  · intro hfail
    rcases hfail with hnone | ⟨o, ho, hsub⟩
    · simp [dynamic_pointer_cast, dynCast, hnone]
    · simp [dynamic_pointer_cast, dynCast, ho, hsub]

/-- Concrete instantiation of `castTo_spec`: a successful cast aliases the
fields and bumps exactly the group's cell (cell 3: 7 to 8, cell 0 untouched);
a failed cast returns the empty handle with the cells untouched. -/
theorem castTo_spec_witness :
    (dynamic_pointer_cast (fun _ => 1) (fun a b => a == b) 1 ⟨some 5, some 3⟩
        (fun _ => 7)).1 = ⟨some 5, some 3⟩ ∧
    (dynamic_pointer_cast (fun _ => 1) (fun a b => a == b) 1 ⟨some 5, some 3⟩
        (fun _ => 7)).2 3 = 8 ∧
    (dynamic_pointer_cast (fun _ => 1) (fun a b => a == b) 1 ⟨some 5, some 3⟩
        (fun _ => 7)).2 0 = 7 ∧
    dynamic_pointer_cast (fun _ => 1) (fun a b => a == b) 2 ⟨some 5, some 3⟩
        (fun _ => 7) = (emptySP, fun _ => 7) := by
  have hs := (castTo_spec (fun _ => 1) (fun a b => a == b) 1 ⟨some 5, some 3⟩
    (fun _ => 7)).1 5 rfl (by decide)
  have hf := (castTo_spec (fun _ => 1) (fun a b => a == b) 2 ⟨some 5, some 3⟩
    (fun _ => 7)).2 (Or.inr ⟨5, rfl, by decide⟩)
  refine ⟨hs.1, ?_, ?_, hf⟩
  · have := (hs.2 3 rfl).1
    norm_num at this
    exact this
  · have := (hs.2 3 rfl).2 0 (by decide)
    exact this

/-- C4 counterexample: a weak handle observing the group of a SharedHandle that
was constructed from a *null* raw pointer (line 55: `ptr = nullptr`,
`refCount = new int(1)`).  Its stored count pointer is non-null with value 1,
yet `lock()` returns a handle that is empty by `isNull` (null target) while the
count IS incremented (1 to 2) — so the claimed biconditional "returns a
non-empty aliasing handle with the count incremented iff count pointer non-null
and positive", with "otherwise empty and no count modified", is false at this
input. -/
theorem lock_claim_counterexample :
    ¬ ((((⟨none, some 0⟩ : TWeakPointer).lock (fun _ => 1)).1.isNull = false ∧
        ((⟨none, some 0⟩ : TWeakPointer).lock (fun _ => 1)).1
          = ⟨(⟨none, some 0⟩ : TWeakPointer).ptr, (⟨none, some 0⟩ : TWeakPointer).refCount⟩ ∧
        ((⟨none, some 0⟩ : TWeakPointer).lock (fun _ => 1)).2 0 = 1 + 1)
      ↔ ((⟨none, some 0⟩ : TWeakPointer).refCount.isSome = true ∧ ((1 : Int) > 0))) ∧
    ((⟨none, some 0⟩ : TWeakPointer).lock (fun _ => 1)).1.isNull = true ∧
    ((⟨none, some 0⟩ : TWeakPointer).lock (fun _ => 1)).2 0 = 2 := by
  refine ⟨?_, by decide, by decide⟩
  intro hiff
  exact absurd (hiff.mpr (by decide)).1 (by decide)

/-- C4 amended: `lock()` returns a handle aliasing the weak handle's observed
target and count pointer with the observed count cell incremented by exactly one
iff the stored count pointer is non-null and its value is positive at the call;
the returned handle is non-empty precisely when the observed target pointer is
non-null (which holds whenever the observed group was created from a non-null
raw pointer).  Otherwise `lock()` returns the empty handle and no cell is
modified. -/
theorem lock_spec (w : TWeakPointer) (cells : Nat → Int) :
    (∀ c, w.refCount = some c → cells c > 0 →
      w.lock cells = (⟨w.ptr, w.refCount⟩, bumpAt cells c) ∧
      bumpAt cells c c = cells c + 1 ∧
      (∀ c', c' ≠ c → bumpAt cells c c' = cells c') ∧
      ((w.lock cells).1.isNull = false ↔ w.ptr.isSome = true)) ∧
    (w.refCount = none ∨ (∀ c, w.refCount = some c → ¬(cells c > 0)) →
      w.lock cells = (emptySP, cells)) := by
  constructor
  · intro c hc hpositive
    have hlock : w.lock cells = (⟨w.ptr, some c⟩, bumpAt cells c) := by
      simp [TWeakPointer.lock, hc, if_pos hpositive, aliasConstruct]
    rw [hc]
    refine ⟨hlock, by simp [bumpAt, Function.update_same], ?_, ?_⟩
    · intro c' hc'
      simp [bumpAt, Function.update_noteq hc']
    · rw [hlock]
      cases hp : w.ptr <;> simp [TSharedPointer.isNull, hp]
  · intro hfail
    rcases hfail with hnone | hle
    · simp [TWeakPointer.lock, hnone]
    · cases hc : w.refCount with
      | none => simp [TWeakPointer.lock, hc]
      | some c =>
        have := hle c hc
        simp [TWeakPointer.lock, hc, if_neg this]

/-- Concrete instantiation of `lock_spec`: locking a live group (count 1,
non-null target 4 at cell 2) yields the alias with the cell bumped to 2, and
locking an expired group (count 0) yields the empty handle unchanged. -/
theorem lock_spec_witness :
    (⟨some 4, some 2⟩ : TWeakPointer).lock (fun _ => 1)
      = (⟨some 4, some 2⟩, bumpAt (fun _ => 1) 2) ∧
    bumpAt (fun _ => 1) 2 2 = 1 + 1 ∧
    ((⟨some 4, some 2⟩ : TWeakPointer).lock (fun _ => 1)).1.isNull = false ∧
    (⟨some 4, some 2⟩ : TWeakPointer).lock (fun _ => 0) = (emptySP, fun _ => 0) := by
  have hs := (lock_spec ⟨some 4, some 2⟩ (fun _ => 1)).1 2 rfl (by decide)
  have hf := (lock_spec ⟨some 4, some 2⟩ (fun _ => 0)).2
    (Or.inr (fun c hc => by cases hc; decide))
  exact ⟨hs.1, hs.2.1, hs.2.2.2.mpr (by decide), hf⟩

/-- C3 counterexample: `explicit TSharedPointer(T* rawPtr) : ptr(rawPtr),
refCount(new int(1))` (part_004 line 55) invoked with a null raw pointer — a
public operation — yields a reachable handle whose count pointer is non-null
while its target pointer is null, refuting "count non-null iff target non-null"
and in particular the claim's null-raw-pointer case. -/
theorem countNonNull_iff_counterexample :
    ReachSP (fun _ => 0) (fun _ _ => true) true ⟨none, some 0⟩ ∧
    ¬ (((⟨none, some 0⟩ : TSharedPointer).refCount.isSome = true)
        ↔ ((⟨none, some 0⟩ : TSharedPointer).ptr.isSome = true)) :=
  ⟨ReachSP.rawCons none 0 (Or.inr rfl), by decide⟩

/-- C3 amended: provided every construction from a raw pointer uses a non-null
pointer (`allowNullRaw = false`), every handle reachable through the public
operations (empty construction, construction from a raw pointer, copy, move,
assignment, reset, swap, `castTo`, weak upgrade) satisfies: the reference-count
pointer is non-null iff the target pointer is non-null.  Construction from a
null raw pointer is the sole violation (see the counterexample): it produces a
non-null count with a null target. -/
theorem countNonNull_iff_targetNonNull (rty : Nat → Nat) (sub : Nat → Nat → Bool)
    (s : TSharedPointer) (h : ReachSP rty sub false s) :
    s.refCount.isSome = true ↔ s.ptr.isSome = true := by
  induction h with
  | emptyCons => simp [emptySP]
  | rawCons p c hp =>
    rcases hp with hp | hp
    · simp [hp]
    · exact absurd hp (by simp)
  | copyOf _ ih => exact ih
  | movedFrom _ _ => simp [emptySP]
  | resetNull _ _ => simp [emptySP]
  | resetRaw p c _ _ => simp
  | castSucc o U _ hptr hsub ih =>
    simp only [Option.isSome_some, iff_true]
    exact ih.mpr (by simp [hptr])
  | castFail _ _ _ => simp [emptySP]
  | lockSucc c _ hrc ih => exact ih
  | lockFail _ _ => simp [emptySP]

/-- Concrete instantiation of `countNonNull_iff_targetNonNull` at a handle
constructed from the non-null raw pointer 7 (count cell 3). -/
theorem countNonNull_iff_targetNonNull_witness :
    (⟨some 7, some 3⟩ : TSharedPointer).refCount.isSome = true
      ↔ (⟨some 7, some 3⟩ : TSharedPointer).ptr.isSome = true :=
  countNonNull_iff_targetNonNull (fun _ => 0) (fun _ _ => true) _
    (ReachSP.rawCons (some 7) 3 (Or.inl rfl))

/-- C6: `TUniquePtr` move-assignment between distinct instances (`this != &other`
holds, TUniquePtr.h lines 71-80): the destination's previously owned target, if
any, is deleted (appended to the free log) before the source's pointer is
adopted; afterwards the destination owns the source's former target and the
source is empty (`isNull()` is true).  Self-assignment is a no-op. -/
theorem uniqueHandle_moveAssign_spec (w : UPWorld) :
    (upMoveAssign w true).dst.ptr = w.src.ptr ∧
    (upMoveAssign w true).src.isNull = true ∧
    (upMoveAssign w true).freed = w.freed ++ w.dst.ptr.toList ∧
    upMoveAssign w false = w :=
  ⟨rfl, rfl, rfl, rfl⟩

/-- C7: calling `TStaticPtr<T>::reset(p1)` and then `reset(p2)` with non-null
pointers: the second reset deletes p1 (appends it to the free log) before
adopting p2, and `get()` afterwards returns p2; the intermediate slot held p1. -/
theorem staticHandle_double_reset (s : StaticSlot) (p1 p2 : Nat) :
    TStaticPtr.get ( TStaticPtr.reset ( TStaticPtr.reset s (some p1)) (some p2)) = some p2 ∧
    ( TStaticPtr.reset ( TStaticPtr.reset s (some p1)) (some p2)).freed
      = ( TStaticPtr.reset s (some p1)).freed ++ [p1] ∧
    ( TStaticPtr.reset s (some p1)).inst = some p1 := by
  cases hs : s.inst <;> simp [ TStaticPtr.reset, TStaticPtr.get, hs]

/-- C8: `Entity::getComponent<T>` (Entity.h lines 55-64; `Actor::getComponent`
in part_002 lines 78-87 is the same code) iterates the owned components in
insertion order and returns, for the first component whose runtime type is T or
derives from T (i.e. the first on which the checked downcast succeeds), a
non-empty handle aliasing that component's ownership group; if no component is
assignable to T it returns the empty handle and no count is touched.  The first
matching component is `find?` on the cast-success test. -/
theorem getComponent_spec (rty : Nat → Nat) (sub : Nat → Nat → Bool) (U : Nat)
    (comps : List TSharedPointer) (cells : Nat → Int) :
    (∀ c, comps.find? (fun comp => (dynCast rty sub U comp.ptr).isSome) = some c →
      getComponent rty sub U comps cells
        = aliasConstruct (dynCast rty sub U c.ptr) c.refCount cells ∧
      (getComponent rty sub U comps cells).1.ptr = dynCast rty sub U c.ptr ∧
      (getComponent rty sub U comps cells).1.refCount = c.refCount ∧
      (getComponent rty sub U comps cells).1.ptr.isSome = true) ∧
    (comps.find? (fun comp => (dynCast rty sub U comp.ptr).isSome) = none →
      getComponent rty sub U comps cells = (emptySP, cells)) := by
  induction comps generalizing cells with
  | nil =>
    constructor
    · intro c hfind
      simp at hfind
    · intro _
      rfl
  | cons comp rest ih =>
    by_cases hc : (dynCast rty sub U comp.ptr).isSome = true
    · obtain ⟨o, ho⟩ := Option.isSome_iff_exists.mp hc
      have hgc : getComponent rty sub U (comp :: rest) cells
          = aliasConstruct (dynCast rty sub U comp.ptr) comp.refCount cells := by
        simp [getComponent, dynamic_pointer_cast, ho, aliasConstruct_fst]
      constructor
      · intro c hfind
        rw [List.find?_cons_of_pos rest hc] at hfind
        injection hfind with hfind
        subst hfind
        refine ⟨hgc, ?_, ?_, ?_⟩
        · rw [hgc, aliasConstruct_fst]
        · rw [hgc, aliasConstruct_fst]
        · rw [hgc, aliasConstruct_fst, ho]
          rfl
      · intro hfind
        rw [List.find?_cons_of_pos rest hc] at hfind
        simp at hfind
    · have ho : dynCast rty sub U comp.ptr = none := by
        rcases hno : dynCast rty sub U comp.ptr with _ | o
        · rfl
        · rw [hno] at hc
          simp at hc
      have hgc : getComponent rty sub U (comp :: rest) cells
          = getComponent rty sub U rest cells := by
        simp [getComponent, dynamic_pointer_cast, ho, emptySP]
      constructor
      · intro c hfind
        rw [List.find?_cons_of_neg rest (by simp [hc])] at hfind
        rw [hgc]
        exact (ih cells).1 c hfind
      · intro hfind
        rw [List.find?_cons_of_neg rest (by simp [hc])] at hfind
        rw [hgc]
        exact (ih cells).2 hfind

/-- Concrete instantiation of `getComponent_spec` with the engine's component
hierarchy and two attached components of different kinds (a `CShape` target,
object 0, and a `Transform` target, object 1): querying by each concrete type
returns the matching component, and querying an unrelated type returns the
empty handle with the cells untouched. -/
theorem getComponent_spec_witness :
    (getComponent actorRty ecsSub cshapeTy
        [⟨some 0, some 10⟩, ⟨some 1, some 11⟩] (fun _ => 1)).1.ptr = some 0 ∧
    (getComponent actorRty ecsSub transformTy
        [⟨some 0, some 10⟩, ⟨some 1, some 11⟩] (fun _ => 1)).1.ptr = some 1 ∧
    getComponent actorRty ecsSub 5
        [⟨some 0, some 10⟩, ⟨some 1, some 11⟩] (fun _ => 1) = (emptySP, fun _ => 1) := by
  have h1 := (getComponent_spec actorRty ecsSub cshapeTy
    [⟨some 0, some 10⟩, ⟨some 1, some 11⟩] (fun _ => 1)).1 ⟨some 0, some 10⟩ (by decide)
  have h2 := (getComponent_spec actorRty ecsSub transformTy
    [⟨some 0, some 10⟩, ⟨some 1, some 11⟩] (fun _ => 1)).1 ⟨some 1, some 11⟩ (by decide)
  have h3 := (getComponent_spec actorRty ecsSub 5
    [⟨some 0, some 10⟩, ⟨some 1, some 11⟩] (fun _ => 1)).2 (by decide)
  refine ⟨?_, ?_, h3⟩
  · rw [h1.2.1]
    decide
  · rw [h2.2.1]
    decide

/-- C10: `Actor::Actor(const std::string&)` attaches exactly two components, in
order: the `CShape` alias (object 0) at index 0, then the `Transform` alias
(object 1) at index 1.  Immediately after construction `getComponent` by each
concrete type returns a non-empty handle, the two refer to distinct components,
and each component's count cell holds 1 (the vector's handle is the only owner
left once the constructor's locals release). -/
theorem actor_construct_components :
    actorConstruct.1 = [⟨some 0, some 0⟩, ⟨some 1, some 1⟩] ∧
    actorRty 0 = cshapeTy ∧ actorRty 1 = transformTy ∧
    (getComponent actorRty ecsSub cshapeTy actorConstruct.1 actorConstruct.2).1.ptr
      = some 0 ∧
    (getComponent actorRty ecsSub transformTy actorConstruct.1 actorConstruct.2).1.ptr
      = some 1 ∧
    (getComponent actorRty ecsSub cshapeTy actorConstruct.1 actorConstruct.2).1.isNull
      = false ∧
    (getComponent actorRty ecsSub transformTy actorConstruct.1 actorConstruct.2).1.isNull
      = false ∧
    actorConstruct.2 0 = 1 ∧ actorConstruct.2 1 = 1 := by
  decide

/-- Exact square root used by the first seek scenario. -/
theorem sqrt_ten_thousand : Real.sqrt 10000 = 100 := by
  rw [show (10000 : ℝ) = 100 ^ 2 by norm_num]
  exact Real.sqrt_sq (by norm_num)

/-- Exact square root used by the second seek scenario. -/
theorem sqrt_twenty_five : Real.sqrt 25 = 5 := by
  rw [show (25 : ℝ) = 5 ^ 2 by norm_num]
  exact Real.sqrt_sq (by norm_num)

/-- C9: `Transform::seek` moves the position by `speed * deltaTime` along the
unit vector toward the target exactly when the Euclidean distance to the target
strictly exceeds `range`, and leaves the position unchanged otherwise; in
particular from (0,0) toward (100,0) with speed 50, deltaTime 1, range 10 the
new position is (50,0) (distance 100 > 10), and from (95,0) toward (100,0) with
the same parameters the position stays (95,0) (distance 5 <= 10). -/
theorem transform_seek_spec :
    (∀ (pos tgt : Vector2f) (speed dt range : ℝ),
      (Real.sqrt ((tgt.x - pos.x) * (tgt.x - pos.x) + (tgt.y - pos.y) * (tgt.y - pos.y))
          > range →
        Transform.seek pos tgt speed dt range
          = ⟨pos.x + (tgt.x - pos.x)
                / Real.sqrt ((tgt.x - pos.x) * (tgt.x - pos.x)
                    + (tgt.y - pos.y) * (tgt.y - pos.y)) * speed * dt,
             pos.y + (tgt.y - pos.y)
                / Real.sqrt ((tgt.x - pos.x) * (tgt.x - pos.x)
                    + (tgt.y - pos.y) * (tgt.y - pos.y)) * speed * dt⟩) ∧
      (Real.sqrt ((tgt.x - pos.x) * (tgt.x - pos.x) + (tgt.y - pos.y) * (tgt.y - pos.y))
          ≤ range →
        Transform.seek pos tgt speed dt range = pos)) ∧
    Transform.seek ⟨0, 0⟩ ⟨100, 0⟩ 50 1 10 = ⟨50, 0⟩ ∧
    Transform.seek ⟨95, 0⟩ ⟨100, 0⟩ 50 1 10 = ⟨95, 0⟩ := by
  have hgen : ∀ (pos tgt : Vector2f) (speed dt range : ℝ),
      (Real.sqrt ((tgt.x - pos.x) * (tgt.x - pos.x) + (tgt.y - pos.y) * (tgt.y - pos.y))
          > range →
        Transform.seek pos tgt speed dt range
          = ⟨pos.x + (tgt.x - pos.x)
                / Real.sqrt ((tgt.x - pos.x) * (tgt.x - pos.x)
                    + (tgt.y - pos.y) * (tgt.y - pos.y)) * speed * dt,
             pos.y + (tgt.y - pos.y)
                / Real.sqrt ((tgt.x - pos.x) * (tgt.x - pos.x)
                    + (tgt.y - pos.y) * (tgt.y - pos.y)) * speed * dt⟩) ∧
      (Real.sqrt ((tgt.x - pos.x) * (tgt.x - pos.x) + (tgt.y - pos.y) * (tgt.y - pos.y))
          ≤ range →
        Transform.seek pos tgt speed dt range = pos) := by
    intro pos tgt speed dt range
    constructor
    · intro hgt
      simp only [Transform.seek]
      rw [if_pos hgt]
    · intro hle
      simp only [Transform.seek]
      rw [if_neg (not_lt.mpr hle)]
  refine ⟨hgen, ?_, ?_⟩
  · have h := (hgen ⟨0, 0⟩ ⟨100, 0⟩ 50 1 10).1 (by norm_num [sqrt_ten_thousand])
    rw [h]
    norm_num [sqrt_ten_thousand, Vector2f.mk.injEq]
  · exact (hgen ⟨95, 0⟩ ⟨100, 0⟩ 50 1 10).2 (by norm_num [sqrt_twenty_five])

/-- Concrete instantiation of `transform_seek_spec`: the move branch applied at
the first scenario (distance 100 exceeds range 10), and the stay branch applied
at the second (distance 5 within range 10). -/
theorem transform_seek_spec_witness :
    Transform.seek ⟨0, 0⟩ ⟨100, 0⟩ 50 1 10
      = ⟨0 + (100 - 0) / Real.sqrt ((100 - 0) * (100 - 0) + (0 - 0) * (0 - 0)) * 50 * 1,
         0 + (0 - 0) / Real.sqrt ((100 - 0) * (100 - 0) + (0 - 0) * (0 - 0)) * 50 * 1⟩ ∧
    Transform.seek ⟨95, 0⟩ ⟨100, 0⟩ 50 1 10 = ⟨95, 0⟩ :=
  ⟨(transform_seek_spec.1 ⟨0, 0⟩ ⟨100, 0⟩ 50 1 10).1 (by norm_num [sqrt_ten_thousand]),
   (transform_seek_spec.1 ⟨95, 0⟩ ⟨100, 0⟩ 50 1 10).2 (by norm_num [sqrt_twenty_five])⟩
